import Mathlib

/-!
Verification of the inline token-insertion text editor
(`src/public/TokenEditor.js`) of the design-qa repository.

The component is a contentEditable-based editor.  We embed it shallowly:
the DOM children of the editor root become a list of buffer nodes (text
runs and token tags), the caret becomes an explicit position, React
component state becomes fields of an `EditorState` record, and every event
handler becomes a pure transition function.  JavaScript strings are
modelled as Lean strings operated on through their character lists
(JS string indices are UTF-16 code units; for the catalogue data in scope
these coincide with code points).  JavaScript `||` fallbacks on possibly
missing, possibly empty strings are modelled by `jsOr`.
-/

/-! ### JavaScript string primitives -/

/-- Model of the JS fallback `a || b` for an optional string `a`:
the empty string is falsy, so it also falls through to `b`. -/
def jsOr (a : Option String) (b : String) : String :=
  match a with
  | some s => if s = "" then b else s
  | none => b

/-- ASCII lower-casing of a character, as `String.prototype.toLowerCase`
acts on the ASCII range (the only range exercised by the catalogue). -/
def jsToLower (c : Char) : Char :=
  if 'A' ≤ c ∧ c ≤ 'Z' then Char.ofNat (c.toNat + 32) else c

/-- Model of `s.toLowerCase()`. -/
def strLower (s : String) : String :=
  (s.toList.map jsToLower).asString

/-- Character-list test: does the second list start with the first? -/
def listStartsWith : List Char → List Char → Bool
  | [], _ => true
  | _ :: _, [] => false
  | a :: as, b :: bs => a = b && listStartsWith as bs

/-- Character-list test: does the first list occur contiguously inside
the second? -/
def listOccursIn (needle : List Char) : List Char → Bool
  | [] => listStartsWith needle []
  | b :: bs => listStartsWith needle (b :: bs) || listOccursIn needle bs

/-- Model of `hay.includes(needle)`. -/
def jsIncludes (hay needle : String) : Bool :=
  listOccursIn needle.toList hay.toList

/-- Model of `s.substring(0, n)` (also `String.prototype.slice` prefix). -/
def strTake (s : String) (n : Nat) : String :=
  (s.toList.take n).asString

/-- Model of `s.substring(n)`. -/
def strDrop (s : String) (n : Nat) : String :=
  (s.toList.drop n).asString

/-- Model of `s.substring(a, b)`: `substring` clamps both arguments to the
string length and swaps them when `a > b`. -/
def jsSubstring (s : String) (a b : Nat) : String :=
  let l := s.toList
  let a' := min a l.length
  let b' := min b l.length
  if a' ≤ b' then ((l.take b').drop a').asString
  else ((l.take a').drop b').asString

/-- Insertion of one typed character at a caret offset of a text run. -/
def strInsert (s : String) (off : Nat) (c : Char) : String :=
  (s.toList.take off ++ c :: s.toList.drop off).asString

/-- Splitting of a character list at the path separator, as
`name.split(sep)` for a one-character separator: the empty string splits
to one empty field, and separators at the ends produce empty fields. -/
def splitSep (sep : Char) : List Char → List (List Char)
  | [] => [[]]
  | c :: rest =>
    let r := splitSep sep rest
    if c = sep then [] :: r
    else
      match r with
      | [] => [[c]]
      | h :: t => (c :: h) :: t

/-- Model of `name.split(sep)` for a one-character separator. -/
def jsSplit (sep : Char) (s : String) : List String :=
  (splitSep sep s.toList).map List.asString

/-- Model of `parts.join(sep)` on a list of strings. -/
def joinSep (sep : String) : List String → String
  | [] => ""
  | [x] => x
  | x :: xs => x ++ sep ++ joinSep sep xs

/-- Whitespace predicate of `String.prototype.trim` restricted to the
ASCII whitespace characters that can occur in the editor buffer. -/
def jsIsWs (c : Char) : Bool :=
  c = ' ' || c = '\t' || c = '\n' || c = '\r'

/-- Model of `s.trim()`. -/
def jsTrim (s : String) : String :=
  (((s.toList.dropWhile jsIsWs).reverse.dropWhile jsIsWs).reverse).asString

/-! ### Data model: tokens and categories -/

/-- A design token as delivered by the token-catalogue collaborator.
Fields that a given category does not use are absent (`none`); absent and
empty both count as falsy for the JS `||` fallbacks. -/
structure Tok where
  id : Nat
  label : Option String := none
  name : Option String := none
  value : Option String := none
  fontFamily : Option String := none
  fontSize : Option Nat := none
  fontWeight : Option Nat := none
deriving DecidableEq

/-- A category row of the top-level menu (TokenEditor.js lines 13-17). -/
structure Category where
  id : String
  label : String
  color : String
  tokens : List Tok
deriving DecidableEq

/-- The token-catalogue snapshot handed to the component as the `tokens`
prop: `{colors, typography, spacing}`.  An absent field is the empty list
(`tokens.colors || []`). -/
structure TokensProp where
  colors : List Tok := []
  typography : List Tok := []
  spacing : List Tok := []
deriving DecidableEq

/-- The `categories` array of the component (lines 13-17), rebuilt from
the live `tokens` prop on every render. -/
def categoriesOf (p : TokensProp) : List Category :=
  [ ⟨"colour", "Colour tokens", "#8b5cf6", p.colors⟩,
    ⟨"text", "Text tokens", "#3b82f6", p.typography⟩,
    ⟨"spacing", "Spacing tokens", "#10b981", p.spacing⟩ ]

/-- The name string used everywhere for a token:
`token.label || token.name || ''` (lines 24 and 121). -/
def tokenNameOf (t : Tok) : String :=
  jsOr t.label (jsOr t.name "")

/-- Result of `parseTokenName` (lines 23-36). -/
structure ParsedName where
  groups : List String
  displayName : String
deriving DecidableEq

/-- Model of `parseTokenName` (lines 23-36): split the name on the path
separator; a single segment has no groups, otherwise the last segment is
the display name and the segments before it are the groups. -/
def parseTokenName (t : Tok) : ParsedName :=
  let name := tokenNameOf t
  let parts := jsSplit '/' name
  if parts.length = 1 then ⟨[], name⟩
  else ⟨parts.dropLast, parts.getLastD ""⟩

example : parseTokenName ⟨1, some "Body/Bold/Body 4", none, none, none, none, none⟩ =
    ⟨["Body", "Bold"], "Body 4"⟩ := by decide

example : parseTokenName ⟨1, some "Primary Blue", none, none, none, none, none⟩ =
    ⟨[], "Primary Blue"⟩ := by decide

/-! ### Token Catalog Normalizer: `groupTokens` (lines 50-114)

The JS code accumulates the tokens into a plain object used as a keyed
map of groups, each group holding a keyed map of subgroups (the implicit
subgroup of single-segment names uses the sentinel key).  We realise the
two keyed maps as association lists in insertion order; an update mutates
the first entry with the key, and a missing key is appended at the end,
exactly as a JS object behaves for string keys. -/

/-- The sentinel subgroup key used by the source for tokens whose parsed
name has exactly one group segment. -/
def noneKey : String := "__none__"

/-- Association map from subgroup key to the tokens pushed into it. -/
abbrev SubMap := List (String × List Tok)

/-- Association map from group name to its subgroup map. -/
abbrev GMap := List (String × SubMap)

/-- Lookup of a subgroup bucket; a missing key reads as the empty
bucket (the JS code only reads keys it has created). -/
def lookS : SubMap → String → List Tok
  | [], _ => []
  | (k', ts) :: rest, k => if k' = k then ts else lookS rest k

/-- Lookup of the subgroup map of a group. -/
def lookSub : GMap → String → SubMap
  | [], _ => []
  | (g', s) :: rest, g => if g' = g then s else lookSub rest g

/-- Push a token onto subgroup bucket `k`, creating the bucket at the end
of the map when absent. -/
def updS : SubMap → String → Tok → SubMap
  | [], k, t => [(k, [t])]
  | (k', ts) :: rest, k, t =>
    if k' = k then (k', ts ++ [t]) :: rest else (k', ts) :: updS rest k t

/-- Push a token onto bucket `k` of group `g`, creating the group and the
bucket when absent. -/
def updG : GMap → String → String → Tok → GMap
  | [], g, k, t => [(g, [(k, [t])])]
  | (g', s) :: rest, g, k, t =>
    if g' = g then (g', updS s k t) :: rest else (g', s) :: updG rest g k t

/-- The branching of the accumulation loop (lines 54-81): no group
segment means the ungrouped bucket, one segment the implicit subgroup of
that group, and two or more segments the first two segments, deeper
segments being ignored. -/
def placeKey (t : Tok) : Option (String × String) :=
  match (parseTokenName t).groups with
  | [] => none
  | [g] => some (g, noneKey)
  | g :: sg :: _ => some (g, sg)

/-- One iteration of the `tokenList.forEach` accumulation. -/
def buildStep (acc : GMap × List Tok) (t : Tok) : GMap × List Tok :=
  match placeKey t with
  | none => (acc.1, acc.2 ++ [t])
  | some (g, k) => (updG acc.1 g k t, acc.2)

/-- The accumulation phase of `groupTokens`: the group map and the
ungrouped bucket after the `forEach` loop. -/
def buildGroups (tl : List Tok) : GMap × List Tok :=
  tl.foldl buildStep ([], [])

/-- Keys of the group map, in insertion order (`Object.keys`). -/
def gKeys (m : GMap) : List String := m.map (·.1)

/-- Keys of a subgroup map, in insertion order. -/
def sKeys (s : SubMap) : List String := s.map (·.1)

/-- The subgroup comparator of lines 92-96 as a relation: the sentinel
key sorts before everything, and the remaining keys compare
lexicographically (the model renders `localeCompare` as the code-point
order, which agrees with it on the ASCII catalogue names). -/
def subLe (a b : String) : Prop :=
  a = noneKey ∨ (b ≠ noneKey ∧ a ≤ b)

instance : DecidableRel subLe := fun a b => by
  unfold subLe; infer_instance

instance : IsTotal String subLe where
  total a b := by
    by_cases ha : a = noneKey
    · exact Or.inl (Or.inl ha)
    · by_cases hb : b = noneKey
      · exact Or.inr (Or.inl hb)
      · rcases le_total a b with h | h
        · exact Or.inl (Or.inr ⟨hb, h⟩)
        · exact Or.inr (Or.inr ⟨ha, h⟩)

instance : IsTrans String subLe where
  trans a b c hab hbc := by
    rcases hab with ha | ⟨hb, hab⟩
    · exact Or.inl ha
    · rcases hbc with hb' | ⟨hc, hbc⟩
      · exact absurd hb' hb
      · exact Or.inr ⟨hc, le_trans hab hbc⟩

/-- An entry of the grouped structure returned by `groupTokens`: either a
named group with its ordered subgroups, or the trailing ungrouped bucket
(`group: null`). -/
inductive GroupEntry
  | grouped (group : String) (subgroups : List (Option String × List Tok))
  | ungrouped (tokens : List Tok)
deriving DecidableEq

/-- Conversion of one group of the map to its sorted subgroup entries
(lines 89-103): keys sorted with the sentinel first, the sentinel
rendered as `null`. -/
def mkSubEntries (s : SubMap) : List (Option String × List Tok) :=
  (List.insertionSort subLe (sKeys s)).map
    (fun k => (if k = noneKey then none else some k, lookS s k))

/-- Model of `groupTokens` (lines 50-114): accumulate, emit the groups in
sorted key order with sorted subgroups, and append the ungrouped bucket
when it is non-empty. -/
def groupTokens (tl : List Tok) : List GroupEntry :=
  let acc := buildGroups tl
  ((List.insertionSort (fun a b : String => a ≤ b) (gKeys acc.1)).map
    (fun g => GroupEntry.grouped g (mkSubEntries (lookSub acc.1 g))))
  ++ (if acc.2.length > 0 then [GroupEntry.ungrouped acc.2] else [])

example :
    groupTokens
      [⟨1, some "Text/Primary", none, none, none, none, none⟩,
       ⟨2, some "Text/Secondary", none, none, none, none, none⟩,
       ⟨3, some "Primary Blue", none, none, none, none, none⟩] =
    [GroupEntry.grouped "Text"
       [(none, [⟨1, some "Text/Primary", none, none, none, none, none⟩,
                ⟨2, some "Text/Secondary", none, none, none, none, none⟩])],
     GroupEntry.ungrouped [⟨3, some "Primary Blue", none, none, none, none, none⟩]] := by
  decide

/-! ### Menu derivations (lines 117-154) -/

/-- Model of `getFilteredTokens` (lines 117-124) for an active category:
keep the tokens whose label contains the live filter, both lower-cased.
The `activeCategory === null` early return is handled at the call sites,
which all branch on the active category first. -/
def getFilteredTokens (c : Category) (filter : String) : List Tok :=
  c.tokens.filter
    (fun t => jsIncludes (strLower (tokenNameOf t)) (strLower filter))

/-- Model of the top-level branch of `currentItems` (lines 127-133): the
category rows, dropping categories with no tokens and filtering the rest
by label match. -/
def currentCategoryItems (p : TokensProp) (filter : String) : List Category :=
  (categoriesOf p).filter
    (fun c =>
      if c.tokens.length = 0 then false
      else jsIncludes (strLower c.label) (strLower filter))

/-- Tokens of a list of subgroup entries, in order. -/
def subEntryTokens : List (Option String × List Tok) → List Tok
  | [] => []
  | (_, ts) :: rest => ts ++ subEntryTokens rest

/-- Model of `flattenedTokens` (lines 139-154): push the tokens of every
entry in order, ungrouped entries directly and grouped entries subgroup
by subgroup. -/
def flattenedTokens : List GroupEntry → List Tok
  | [] => []
  | GroupEntry.ungrouped ts :: rest => ts ++ flattenedTokens rest
  | GroupEntry.grouped _ subs :: rest => subEntryTokens subs ++ flattenedTokens rest

/-! ### Rendering of the grouped list (lines 468-511)

`renderGroupedTokens` walks the same grouped structure with a mutable
`flatIndex` counter, emitting group titles, subgroup titles and token
items; each token item is rendered from the token and its flat index
(`renderTokenItem(token, flatIndex)`, which compares the flat index with
`selectedIndex` for highlighting).  The model records exactly that emitted
sequence. -/

/-- One element pushed by `renderGroupedTokens`. -/
inductive RenderElem
  | groupTitle (s : String)
  | subgroupTitle (s : String)
  | item (flatIndex : Nat) (t : Tok)
deriving DecidableEq

/-- Rendering of the tokens of one bucket, threading the flat index. -/
def renderTokens : List Tok → Nat → List RenderElem × Nat
  | [], i => ([], i)
  | t :: rest, i =>
    let r := renderTokens rest (i + 1)
    (RenderElem.item i t :: r.1, r.2)

/-- Rendering of the subgroups of one group (lines 490-506): a subgroup
subtitle when the label exists, then the tokens of the subgroup. -/
def renderSubgroups : List (Option String × List Tok) → Nat → List RenderElem × Nat
  | [], i => ([], i)
  | (lab, toks) :: rest, i =>
    let r1 := renderTokens toks i
    let r2 := renderSubgroups rest r1.2
    ((match lab with
      | some s => [RenderElem.subgroupTitle s]
      | none => []) ++ r1.1 ++ r2.1, r2.2)

/-- Rendering of the full grouped structure (lines 474-508). -/
def renderGroupsAux : List GroupEntry → Nat → List RenderElem × Nat
  | [], i => ([], i)
  | GroupEntry.ungrouped toks :: rest, i =>
    let r1 := renderTokens toks i
    let r2 := renderGroupsAux rest r1.2
    (r1.1 ++ r2.1, r2.2)
  | GroupEntry.grouped g subs :: rest, i =>
    let r1 := renderSubgroups subs i
    let r2 := renderGroupsAux rest r1.2
    (RenderElem.groupTitle g :: (r1.1 ++ r2.1), r2.2)

/-- Model of `renderGroupedTokens` (lines 468-511): the emitted element
sequence, the counter starting at zero. -/
def renderGroupedTokens (gts : List GroupEntry) : List RenderElem :=
  (renderGroupsAux gts 0).1

/-- The token items of a rendered sequence, with their flat indices. -/
def renderedItems (es : List RenderElem) : List (Nat × Tok) :=
  es.filterMap
    (fun e =>
      match e with
      | RenderElem.item i t => some (i, t)
      | _ => none)

/-! ### The editor buffer and state -/

/-- A child node of the contentEditable root: a plain text run, or an
atomic token tag (`span.token-tag` with `contentEditable=false`).  A tag
carries `dataset.type` (the category id), `dataset.value` (the full token
name, which is also its text content) and `title` (the tooltip value). -/
inductive BufNode
  | text (s : String)
  | tag (ty : String) (value : String) (title : String)
deriving DecidableEq

/-- A collapsed DOM caret: either inside the text run at a child index,
at a character offset of that run, or directly on the root element, at a
child offset. -/
inductive CaretPos
  | inText (idx : Nat) (off : Nat)
  | inRoot (off : Nat)
deriving DecidableEq

/-- The component state: the buffer (editor children), the caret, and the
five React state fields `showMenu`, `activeCategory`, `filter`,
`selectedIndex` and `slashPosition`.  `selectedIndex` is an integer
because the ArrowUp handler can compute `itemCount - 1 = -1` on an empty
list.  `slashPosition` stores the node as its child index together with
the character offset of the trigger character. -/
structure EditorState where
  children : List BufNode
  caret : CaretPos
  showMenu : Bool
  activeCategory : Option Category
  filter : String
  selectedIndex : Int
  slashPosition : Option (Nat × Nat)
deriving DecidableEq

/-- The tooltip value string of `insertToken` (lines 321-332), with the
JS truthiness checks on the font fields (`0` and the empty string are
falsy). -/
def tokenValueStr (cat : Category) (t : Tok) : String :=
  if cat.id = "colour" then jsOr t.value ""
  else if cat.id = "text" then
    joinSep ", "
      ((match t.fontFamily with
        | some f => if f = "" then [] else [f]
        | none => []) ++
       (match t.fontSize with
        | some n => if n = 0 then [] else [toString n ++ "px"]
        | none => []) ++
       (match t.fontWeight with
        | some w => if w = 0 then [] else ["weight " ++ toString w]
        | none => []))
  else if cat.id = "spacing" then jsOr t.value ""
  else ""

/-- The tag text of `insertToken` (line 317): `token.label || token.name`.
When both are falsy the DOM would render the string form of `undefined`;
the catalogue never produces that case and the model renders it as the
empty string. -/
def insertTokenName (t : Tok) : String :=
  jsOr t.label (jsOr t.name "")

/-- Model of `insertToken` (lines 302-375).  With no recorded trigger
position the function returns immediately.  Otherwise the text run holding
the trigger is replaced by three nodes: the text before the trigger
character, the token tag, and the text from the caret onwards — a space
placeholder when nothing follows (`after || ' '`).  The caret is then set
inside that following run, at offset 1 when the run is non-empty (it
always is, the placeholder being one character) and 0 otherwise.  Finally
the menu is closed, the active category and the trigger position are
cleared; the filter text is left as it is.  The model returns the state
unchanged when the recorded node is not a text run, a case the component
cannot reach (the JS code would throw on it). -/
def insertToken (tok : Tok) (cat : Category) (st : EditorState) : EditorState :=
  match st.slashPosition with
  | none => st
  | some (nidx, soff) =>
    match st.children.get? nidx with
    | some (BufNode.text s) =>
      let cursorOffset :=
        match st.caret with
        | CaretPos.inText _ o => o
        | CaretPos.inRoot o => o
      let beforeText := strTake s soff
      let afterText0 := strDrop s cursorOffset
      let afterText := if afterText0 = "" then " " else afterText0
      let tagNode :=
        BufNode.tag cat.id (insertTokenName tok) (tokenValueStr cat tok)
      { st with
        children :=
          st.children.take nidx ++
            [BufNode.text beforeText, tagNode, BufNode.text afterText] ++
            st.children.drop (nidx + 1),
        caret := CaretPos.inText (nidx + 2) (if afterText.length > 0 then 1 else 0),
        showMenu := false,
        activeCategory := none,
        slashPosition := none }
    | _ => st

/-- Model of `handleInput` (lines 166-194), run after the browser applied
an edit: with the caret inside a text run, a trigger character immediately
before the caret opens the menu at top level and records the trigger
position; otherwise, while the menu is open with a recorded trigger, the
text between the trigger and the caret becomes the filter, except that a
space inside that span or a caret at or before the trigger closes the menu
and clears the active category and the filter — the trigger position is
left in place.  Outside a text run nothing happens. -/
def handleInput (st : EditorState) : EditorState :=
  match st.caret with
  | CaretPos.inText idx off =>
    match st.children.get? idx with
    | some (BufNode.text s) =>
      let charBefore := if off = 0 then none else s.toList.get? (off - 1)
      if charBefore = some '/' then
        { st with
          showMenu := true,
          activeCategory := none,
          filter := "",
          slashPosition := some (idx, off - 1) }
      else
        match st.showMenu, st.slashPosition with
        | true, some (_, soff) =>
          let textAfterSlash := jsSubstring s (soff + 1) off
          if textAfterSlash.toList.contains ' ' || off ≤ soff then
            { st with showMenu := false, activeCategory := none, filter := "" }
          else
            { st with filter := textAfterSlash }
        | _, _ => st
    | _ => st
  | _ => st

/-- One typed character: the browser inserts it at the caret and advances
the caret, then fires the input event handled by `handleInput`.  Typing
with the caret outside a text run is not modelled (the browser would
create a text node first). -/
def typeChar (c : Char) (st : EditorState) : EditorState :=
  match st.caret with
  | CaretPos.inText idx off =>
    match st.children.get? idx with
    | some (BufNode.text s) =>
      handleInput
        { st with
          children := st.children.set idx (BufNode.text (strInsert s off c)),
          caret := CaretPos.inText idx (off + 1) }
    | _ => st
  | _ => st

/-- The token-tag backspace guard of `handleKeyDown` (lines 198-241), for
a collapsed caret: when the caret sits at offset 0 of a text run whose
previous sibling is a token tag, or directly on the root after a token
tag child, that tag is removed as a whole and the event is consumed;
`none` means the guard does not fire and the browser performs an ordinary
character deletion.  The DOM renumbers a range boundary when an earlier
sibling is removed, so the caret keeps pointing at the same node.  The
source repeats the root-element check twice (lines 217-225 and 228-238);
the model states it once. -/
def backspaceGuard (st : EditorState) : Option EditorState :=
  match st.caret with
  | CaretPos.inText idx 0 =>
    if idx > 0 then
      match st.children.get? (idx - 1) with
      | some (BufNode.tag _ _ _) =>
        some { st with
          children := st.children.eraseIdx (idx - 1),
          caret := CaretPos.inText (idx - 1) 0 }
      | _ => none
    else none
  | CaretPos.inRoot off =>
    if off > 0 then
      match st.children.get? (off - 1) with
      | some (BufNode.tag _ _ _) =>
        some { st with
          children := st.children.eraseIdx (off - 1),
          caret := CaretPos.inRoot (off - 1) }
      | _ => none
    else none
  | _ => none

/-- The text content of a buffer node (`innerText` contribution). -/
def nodeText : BufNode → String
  | BufNode.text s => s
  | BufNode.tag _ v _ => v

/-- Model of `editorRef.current.innerText`: the concatenated text of the
children. -/
def plainTextOf (children : List BufNode) : String :=
  joinSep "" (children.map nodeText)

/-- Model of the `innerHTML` serialization of a buffer node; the inline
style attribute of a tag is omitted as pure presentation. -/
def nodeMarkup : BufNode → String
  | BufNode.text s => s
  | BufNode.tag ty v title =>
    "<span class=\"token-tag\" data-type=\"" ++ ty ++ "\" data-value=\"" ++
      v ++ "\" title=\"" ++ title ++ "\">" ++ v ++ "</span>"

/-- Model of `editorRef.current.innerHTML`. -/
def markupOf (children : List BufNode) : String :=
  joinSep "" (children.map nodeMarkup)

/-- Model of `handleSubmit` (lines 377-386): with a blank trimmed plain
text nothing happens and the state is untouched; otherwise `onSubmit`
receives the trimmed plain text and markup (the first component of the
result) and the buffer is cleared. -/
def handleSubmit (st : EditorState) : Option (String × String) × EditorState :=
  let text := jsTrim (plainTextOf st.children)
  let html := jsTrim (markupOf st.children)
  if text = "" then (none, st)
  else (some (text, html), { st with children := [], caret := CaretPos.inRoot 0 })

/-- The keys handled by `handleKeyDown`; `enter` carries whether a meta
or control modifier is held. -/
inductive Key
  | backspace
  | arrowDown
  | arrowUp
  | enter (meta : Bool)
  | escape
deriving DecidableEq

/-- Model of line 252: the item count the navigation works over — the
flattened grouped filtered tokens of the active category, or the visible
category rows at top level. -/
def itemCount (p : TokensProp) (st : EditorState) : Nat :=
  match st.activeCategory with
  | some c => (flattenedTokens (groupTokens (getFilteredTokens c st.filter))).length
  | none => (currentCategoryItems p st.filter).length

/-- Model of `handleKeyDown` (lines 196-287) together with the
`handleSelect` dispatch (lines 289-300).  The boolean of the result
records whether the handler consumed the event (`preventDefault`); an
unconsumed event falls through to the default contentEditable behaviour,
which is outside the component.  Selection at an index outside the
current list would dereference `undefined` in JS; the model leaves the
state unchanged there. -/
def handleKeyDown (p : TokensProp) (k : Key) (st : EditorState) :
    Bool × EditorState :=
  match k with
  | Key.backspace =>
    if st.showMenu = false then
      match backspaceGuard st with
      | some st' => (true, st')
      | none => (false, st)
    else
      match st.activeCategory with
      | some _ =>
        if st.filter = "" then
          (true, { st with activeCategory := none, selectedIndex := 0 })
        else (false, st)
      | none => (false, st)
  | Key.enter meta =>
    if st.showMenu = false then
      if meta then (true, (handleSubmit st).2) else (false, st)
    else
      if itemCount p st > 0 then
        (true,
          match st.activeCategory with
          | some c =>
            if 0 ≤ st.selectedIndex then
              match (flattenedTokens (groupTokens (getFilteredTokens c st.filter))).get?
                  st.selectedIndex.toNat with
              | some t => insertToken t c st
              | none => st
            else st
          | none =>
            if 0 ≤ st.selectedIndex then
              match (currentCategoryItems p st.filter).get? st.selectedIndex.toNat with
              | some c =>
                { st with activeCategory := some c, selectedIndex := 0, filter := "" }
              | none => st
            else st)
      else (false, st)
  | Key.arrowDown =>
    if st.showMenu = false then (false, st)
    else
      (true, { st with selectedIndex :=
        if st.selectedIndex < (itemCount p st : Int) - 1 then st.selectedIndex + 1
        else 0 })
  | Key.arrowUp =>
    if st.showMenu = false then (false, st)
    else
      (true, { st with selectedIndex :=
        if st.selectedIndex > 0 then st.selectedIndex - 1
        else (itemCount p st : Int) - 1 })
  | Key.escape =>
    if st.showMenu = false then (false, st)
    else
      (true,
        match st.activeCategory with
        | some _ => { st with activeCategory := none, selectedIndex := 0, filter := "" }
        | none => { st with showMenu := false })

/-- The `React.useEffect` of lines 156-158: after a transition, a changed
filter or active category resets the selection index to zero. -/
def applyEffect (old new_ : EditorState) : EditorState :=
  if new_.filter ≠ old.filter ∨ new_.activeCategory ≠ old.activeCategory then
    { new_ with selectedIndex := 0 }
  else new_

/-- An input-stream event: a key press or a typed character. -/
inductive Ev
  | key (k : Key)
  | typed (c : Char)
deriving DecidableEq

/-- One synchronous editor transition under the current catalogue
snapshot: the handler, followed by the selection-reset effect. -/
def step (p : TokensProp) (ev : Ev) (st : EditorState) : EditorState :=
  match ev with
  | Ev.key k => applyEffect st (handleKeyDown p k st).2
  | Ev.typed c => applyEffect st (typeChar c st)

/-- A run of events, each seeing the catalogue snapshot current at its
time (the snapshot is a prop and may change between events). -/
def run (evs : List (TokensProp × Ev)) (st : EditorState) : EditorState :=
  evs.foldl (fun s pe => step pe.1 pe.2 s) st

/-! ### Theorems.  First the refinement between the flattened navigation
list and the rendered grouped list (claim C10). -/

theorem renderedItems_append (es1 es2 : List RenderElem) :
    renderedItems (es1 ++ es2) = renderedItems es1 ++ renderedItems es2 := by
  simp [renderedItems, List.filterMap_append]

theorem renderTokens_items (toks : List Tok) (i : Nat) :
    renderedItems (renderTokens toks i).1 = List.enumFrom i toks ∧
      (renderTokens toks i).2 = i + toks.length := by
  induction toks generalizing i with
  | nil => simp [renderTokens, renderedItems]
  | cons t rest ih =>
    have h := ih (i + 1)
    simp [renderTokens, renderedItems, List.enumFrom]
    constructor
    · have := h.1
      simp [renderedItems] at this
      exact this
    · omega

theorem renderSubgroups_items (subs : List (Option String × List Tok)) (i : Nat) :
    renderedItems (renderSubgroups subs i).1 =
        List.enumFrom i (subEntryTokens subs) ∧
      (renderSubgroups subs i).2 = i + (subEntryTokens subs).length := by
  induction subs generalizing i with
  | nil => simp [renderSubgroups, subEntryTokens, renderedItems]
  | cons p rest ih =>
    obtain ⟨lab, toks⟩ := p
    have h1 := renderTokens_items toks i
    have h2 := ih (i + toks.length)
    simp only [renderSubgroups, subEntryTokens]
    rw [renderedItems_append, renderedItems_append]
    have hlab : renderedItems
        (match lab with
         | some s => [RenderElem.subgroupTitle s]
         | none => []) = [] := by
      cases lab <;> simp [renderedItems]
    rw [hlab, h1.2, h1.1]
    constructor
    · rw [List.enumFrom_append, h2.1]
      simp
    · rw [h2.2]
      simp [List.length_append]
      omega

theorem renderGroupsAux_items (gts : List GroupEntry) (i : Nat) :
    renderedItems (renderGroupsAux gts i).1 =
        List.enumFrom i (flattenedTokens gts) ∧
      (renderGroupsAux gts i).2 = i + (flattenedTokens gts).length := by
  induction gts generalizing i with
  | nil => simp [renderGroupsAux, flattenedTokens, renderedItems]
  | cons e rest ih =>
    cases e with
    | ungrouped toks =>
      have h1 := renderTokens_items toks i
      have h2 := ih (i + toks.length)
      simp only [renderGroupsAux, flattenedTokens]
      rw [renderedItems_append, h1.2, h1.1]
      constructor
      · rw [List.enumFrom_append, h2.1]
      · rw [h2.2]
        simp [List.length_append]
        omega
    | grouped g subs =>
      have h1 := renderSubgroups_items subs i
      have h2 := ih (i + (subEntryTokens subs).length)
      simp only [renderGroupsAux, flattenedTokens]
      have hdrop : renderedItems
          (RenderElem.groupTitle g :: ((renderSubgroups subs i).1 ++
            (renderGroupsAux rest (renderSubgroups subs i).2).1)) =
          renderedItems ((renderSubgroups subs i).1 ++
            (renderGroupsAux rest (renderSubgroups subs i).2).1) := by
        simp [renderedItems]
      rw [hdrop, renderedItems_append, h1.2, h1.1]
      constructor
      · rw [List.enumFrom_append, h2.1]
      · rw [h2.2]
        simp [List.length_append]
        omega

/-- C10: the flattened token sequence used for keyboard navigation lists
exactly the tokens of the rendered grouped list, in the same order, and
the flat index attached to each rendered token item is exactly its
position in the flattened sequence — so the item at `selectedIndex` in
`flattenedTokens` is the item the menu renders as selected. -/
theorem flattened_matches_render (gts : List GroupEntry) :
    renderedItems (renderGroupedTokens gts) =
      List.enum (flattenedTokens gts) := by
  have h := renderGroupsAux_items gts 0
  simpa [renderGroupedTokens, List.enum] using h.1

/-! ### Lemmas about the grouping maps (towards claim C5) -/

/-- Reading a subgroup bucket after a push: the pushed bucket gains the
token at its end, every other bucket is untouched. -/
theorem lookS_updS (s : SubMap) (k : String) (t : Tok) (k' : String) :
    lookS (updS s k t) k' = if k' = k then lookS s k ++ [t] else lookS s k' := by
  induction s with
  | nil =>
    by_cases h : k' = k
    · subst h
      simp [updS, lookS]
    · simp [updS, lookS, h, Ne.symm h]
  | cons p rest ih =>
    obtain ⟨k0, ts⟩ := p
    by_cases h0 : k0 = k
    · subst h0
      by_cases h : k' = k0
      · subst h
        simp [updS, lookS]
      · simp [updS, lookS, h, Ne.symm h]
    · by_cases h : k' = k
      · subst h
        simp [updS, lookS, h0, Ne.symm h0, ih]
      · by_cases h1 : k0 = k' <;> simp [updS, lookS, h0, h1, ih, h]

/-- Reading a group after a push: the pushed group has its subgroup map
updated, every other group is untouched. -/
theorem lookSub_updG (m : GMap) (g k : String) (t : Tok) (g' : String) :
    lookSub (updG m g k t) g' =
      if g' = g then updS (lookSub m g) k t else lookSub m g' := by
  induction m with
  | nil =>
    by_cases h : g' = g
    · subst h
      simp [updG, lookSub, updS]
    · simp [updG, lookSub, h, Ne.symm h]
  | cons p rest ih =>
    obtain ⟨g0, s0⟩ := p
    by_cases h0 : g0 = g
    · subst h0
      by_cases h : g' = g0
      · subst h
        simp [updG, lookSub]
      · simp [updG, lookSub, h, Ne.symm h]
    · by_cases h : g' = g
      · subst h
        simp [updG, lookSub, h0, Ne.symm h0, ih]
      · by_cases h1 : g0 = g' <;> simp [updG, lookSub, h0, h1, ih, h]

/-- The bucket of group `g`, subgroup key `k`. -/
def lookB (m : GMap) (g k : String) : List Tok :=
  lookS (lookSub m g) k

/-- Reading any bucket after a push. -/
theorem lookB_updG (m : GMap) (g k : String) (t : Tok) (g' k' : String) :
    lookB (updG m g k t) g' k' =
      if g' = g ∧ k' = k then lookB m g k ++ [t] else lookB m g' k' := by
  unfold lookB
  rw [lookSub_updG]
  by_cases hg : g' = g
  · subst hg
    rw [if_pos rfl, lookS_updS]
    by_cases hk : k' = k <;> simp [hk]
  · simp [hg]

theorem gKeys_cons (p : String × SubMap) (rest : GMap) :
    gKeys (p :: rest) = p.1 :: gKeys rest := rfl

theorem sKeys_cons (p : String × List Tok) (rest : SubMap) :
    sKeys (p :: rest) = p.1 :: sKeys rest := rfl

/-- A bucket that was never written reads as empty (missing group). -/
theorem lookSub_of_not_mem (m : GMap) (g : String) (h : g ∉ gKeys m) :
    lookSub m g = [] := by
  induction m with
  | nil => rfl
  | cons p rest ih =>
    obtain ⟨g0, s0⟩ := p
    rw [gKeys_cons] at h
    simp only [List.mem_cons, not_or] at h
    simp [lookSub, Ne.symm h.1, ih h.2]

/-- A bucket that was never written reads as empty (missing subgroup). -/
theorem lookS_of_not_mem (s : SubMap) (k : String) (h : k ∉ sKeys s) :
    lookS s k = [] := by
  induction s with
  | nil => rfl
  | cons p rest ih =>
    obtain ⟨k0, ts⟩ := p
    rw [sKeys_cons] at h
    simp only [List.mem_cons, not_or] at h
    simp [lookS, Ne.symm h.1, ih h.2]

/-- The accumulation loop, bucket view: after folding the token list over
an arbitrary accumulator, the bucket of `(g, k)` holds its previous
contents followed by exactly the tokens of the list the branching sends
to `(g, k)`, in list order. -/
theorem foldl_buildStep_lookB (tl : List Tok) :
    ∀ (m : GMap) (u : List Tok) (g k : String),
      lookB (tl.foldl buildStep (m, u)).1 g k =
        lookB m g k ++ tl.filter (fun t => decide (placeKey t = some (g, k))) := by
  induction tl with
  | nil => intro m u g k; simp
  | cons t rest ih =>
    intro m u g k
    simp only [List.foldl_cons, List.filter_cons]
    cases hpk : placeKey t with
    | none =>
      simp [buildStep, hpk, ih]
    | some p =>
      obtain ⟨g0, k0⟩ := p
      simp only [buildStep, hpk]
      rw [ih, lookB_updG]
      by_cases hg : g = g0
      · subst hg
        by_cases hk : k = k0
        · subst hk
          simp [hpk]
        · simp [hpk, hk, Ne.symm hk]
      · simp [hpk, hg, Ne.symm hg]

/-- The accumulation loop, ungrouped view: the ungrouped bucket collects
exactly the tokens the branching sends nowhere, in list order. -/
theorem foldl_buildStep_ungrouped (tl : List Tok) :
    ∀ (m : GMap) (u : List Tok),
      (tl.foldl buildStep (m, u)).2 =
        u ++ tl.filter (fun t => decide (placeKey t = none)) := by
  induction tl with
  | nil => intro m u; simp
  | cons t rest ih =>
    intro m u
    simp only [List.foldl_cons, List.filter_cons]
    cases hpk : placeKey t with
    | none => simp [buildStep, hpk, ih]
    | some p => simp [buildStep, hpk, ih]

/-! ### Structure of the `groupTokens` output -/

/-- Rewriting of `groupTokens` without the intermediate binding, for
proofs. -/
theorem groupTokens_eq (tl : List Tok) :
    groupTokens tl =
      ((List.insertionSort (fun a b : String => a ≤ b)
          (gKeys (buildGroups tl).1)).map
        (fun g => GroupEntry.grouped g (mkSubEntries (lookSub (buildGroups tl).1 g))))
      ++ (if (buildGroups tl).2.length > 0
          then [GroupEntry.ungrouped (buildGroups tl).2] else []) := rfl

/-- Order relation on subgroup labels as rendered: the label of the
implicit subgroup (`null`) precedes every label, and named labels are in
lexicographic order. -/
def optLe (a b : Option String) : Prop :=
  match a, b with
  | none, _ => True
  | some _, none => False
  | some x, some y => x ≤ y

/-- The subgroup-map key a rendered subgroup label corresponds to. -/
def labKey : Option String → String
  | none => noneKey
  | some s => s

/-- The labels of the named group entries, in order. -/
def groupLabelsOf (es : List GroupEntry) : List String :=
  es.filterMap
    (fun e =>
      match e with
      | GroupEntry.grouped g _ => some g
      | GroupEntry.ungrouped _ => none)

/-- Containment of a token in a group entry. -/
def entryHasTok (e : GroupEntry) (t : Tok) : Prop :=
  match e with
  | GroupEntry.ungrouped ts => t ∈ ts
  | GroupEntry.grouped _ subs => ∃ p ∈ subs, t ∈ p.2

instance : IsTotal String (fun a b : String => a ≤ b) := ⟨le_total⟩

instance : IsTrans String (fun a b : String => a ≤ b) :=
  ⟨fun _ _ _ => le_trans⟩

/-- A named group entry of the output is one of the sorted keys of the
accumulated map, with its sorted subgroup entries. -/
theorem grouped_mem_groupTokens {tl : List Tok} {g : String}
    {subs : List (Option String × List Tok)}
    (h : GroupEntry.grouped g subs ∈ groupTokens tl) :
    g ∈ List.insertionSort (fun a b : String => a ≤ b) (gKeys (buildGroups tl).1) ∧
      subs = mkSubEntries (lookSub (buildGroups tl).1 g) := by
  rw [groupTokens_eq] at h
  rcases List.mem_append.mp h with hA | hB
  · obtain ⟨g', hg', heq⟩ := List.mem_map.mp hA
    obtain ⟨h1, h2⟩ := GroupEntry.grouped.injEq .. ▸ heq
    exact ⟨h1 ▸ hg', h2.symm ▸ (h1 ▸ rfl)⟩
  · by_cases hc : (buildGroups tl).2.length > 0
    · rw [if_pos hc] at hB
      simp at hB
    · rw [if_neg hc] at hB
      simp at hB

/-- An ungrouped entry of the output is exactly the accumulated ungrouped
bucket, and only appears when it is non-empty. -/
theorem ungrouped_mem_groupTokens {tl : List Tok} {u : List Tok}
    (h : GroupEntry.ungrouped u ∈ groupTokens tl) :
    u = (buildGroups tl).2 ∧ (buildGroups tl).2.length > 0 := by
  rw [groupTokens_eq] at h
  rcases List.mem_append.mp h with hA | hB
  · obtain ⟨g', _, heq⟩ := List.mem_map.mp hA
    exact absurd heq (by simp)
  · by_cases hc : (buildGroups tl).2.length > 0
    · rw [if_pos hc] at hB
      simp at hB
      exact ⟨hB, hc⟩
    · rw [if_neg hc] at hB
      simp at hB

/-- Bucket-content lemma: in any named group entry of the output, the
token list of a subgroup entry is exactly the filter of the input list by
the placement of the first two parsed path segments, in input order. -/
theorem groupTokens_bucket {tl : List Tok} {g : String}
    {subs : List (Option String × List Tok)} {lab : Option String}
    {toks : List Tok}
    (h : GroupEntry.grouped g subs ∈ groupTokens tl)
    (h2 : (lab, toks) ∈ subs) :
    toks = tl.filter (fun t => decide (placeKey t = some (g, labKey lab))) := by
  obtain ⟨-, hsubs⟩ := grouped_mem_groupTokens h
  subst hsubs
  obtain ⟨k, _, heq⟩ := List.mem_map.mp h2
  have hlab : (if k = noneKey then none else some k) = lab := (Prod.ext_iff.mp heq).1
  have htoks : lookS (lookSub (buildGroups tl).1 g) k = toks := (Prod.ext_iff.mp heq).2
  have hkey : labKey lab = k := by
    by_cases hkn : k = noneKey
    · rw [← hlab, if_pos hkn]
      simpa [labKey] using hkn.symm
    · rw [← hlab, if_neg hkn]
      rfl
  have hfold := foldl_buildStep_lookB tl [] [] g k
  rw [hkey, ← htoks]
  have hnil : lookB ([] : GMap) g k = [] := rfl
  rw [show (buildGroups tl).1 = (tl.foldl buildStep ([], [])).1 from rfl]
  rw [show lookS (lookSub (tl.foldl buildStep ([], [])).1 g) k =
      lookB (tl.foldl buildStep ([], [])).1 g k from rfl]
  rw [hfold, hnil, List.nil_append]

/-- Ungrouped-content lemma: the ungrouped entry holds exactly the tokens
without any path segment, in input order, and sits last in the output. -/
theorem groupTokens_ungrouped {tl : List Tok} {u : List Tok}
    (h : GroupEntry.ungrouped u ∈ groupTokens tl) :
    u = tl.filter (fun t => decide (placeKey t = none)) ∧
      (groupTokens tl).getLast? = some (GroupEntry.ungrouped u) := by
  obtain ⟨hu, hpos⟩ := ungrouped_mem_groupTokens h
  have hfold := foldl_buildStep_ungrouped tl [] []
  constructor
  · rw [hu, show (buildGroups tl).2 = (tl.foldl buildStep ([], [])).2 from rfl,
      hfold, List.nil_append]
  · rw [groupTokens_eq, if_pos hpos, ← hu, List.getLast?_concat]

/-- Every entry before the last one is a named group: the ungrouped
bucket can only be the trailing entry. -/
theorem groupTokens_trailing {tl : List Tok} {e : GroupEntry}
    (h : e ∈ (groupTokens tl).dropLast) :
    ∃ g subs, e = GroupEntry.grouped g subs := by
  rw [groupTokens_eq] at h
  by_cases hc : (buildGroups tl).2.length > 0
  · rw [if_pos hc, List.dropLast_concat] at h
    obtain ⟨g', _, heq⟩ := List.mem_map.mp h
    exact ⟨g', _, heq.symm⟩
  · rw [if_neg hc, List.append_nil] at h
    have h' := List.dropLast_sublist _ |>.subset h
    obtain ⟨g', _, heq⟩ := List.mem_map.mp h'
    exact ⟨g', _, heq.symm⟩

/-- The labels of the named groups of the output are sorted
lexicographically. -/
theorem groupTokens_groups_sorted (tl : List Tok) :
    List.Sorted (fun a b : String => a ≤ b) (groupLabelsOf (groupTokens tl)) := by
  have hlab : groupLabelsOf (groupTokens tl) =
      List.insertionSort (fun a b : String => a ≤ b) (gKeys (buildGroups tl).1) := by
    rw [groupTokens_eq]
    unfold groupLabelsOf
    rw [List.filterMap_append]
    have h1 :
        (((List.insertionSort (fun a b : String => a ≤ b)
            (gKeys (buildGroups tl).1)).map
          (fun g => GroupEntry.grouped g
            (mkSubEntries (lookSub (buildGroups tl).1 g)))).filterMap
          (fun e =>
            match e with
            | GroupEntry.grouped g _ => some g
            | GroupEntry.ungrouped _ => none)) =
        List.insertionSort (fun a b : String => a ≤ b) (gKeys (buildGroups tl).1) := by
      rw [List.filterMap_map]
      exact List.filterMap_eq_map_iff_forall_eq_some.mpr (fun g _ => rfl) ▸
        List.map_id _
    rw [h1]
    by_cases hc : (buildGroups tl).2.length > 0
    · rw [if_pos hc]
      simp
    · rw [if_neg hc]
      simp
  rw [hlab]
  exact List.sorted_insertionSort _ _

/-- The comparator respects the rendered label order: mapping the
sentinel to `null` turns `subLe` into `optLe`. -/
theorem subLe_to_optLe {a b : String} (h : subLe a b) :
    optLe (if a = noneKey then none else some a)
      (if b = noneKey then none else some b) := by
  by_cases ha : a = noneKey
  · simp [ha, optLe]
  · rcases h with h' | ⟨hb, hle⟩
    · exact absurd h' ha
    · simp [ha, hb, optLe, hle]

/-- Subgroup labels of every named group entry of the output are sorted:
the implicit `null` label first, then the named labels in lexicographic
order. -/
theorem groupTokens_subs_sorted {tl : List Tok} {g : String}
    {subs : List (Option String × List Tok)}
    (h : GroupEntry.grouped g subs ∈ groupTokens tl) :
    List.Sorted optLe (subs.map Prod.fst) := by
  obtain ⟨-, hsubs⟩ := grouped_mem_groupTokens h
  subst hsubs
  unfold mkSubEntries
  rw [List.map_map]
  have hs : List.Sorted subLe
      (List.insertionSort subLe (sKeys (lookSub (buildGroups tl).1 g))) :=
    List.sorted_insertionSort subLe _
  refine List.Pairwise.map _ (fun a b hab => ?_) hs
  exact subLe_to_optLe hab

/-- Completeness: every input token is contained in some entry of the
output. -/
theorem groupTokens_complete {tl : List Tok} {t : Tok} (h : t ∈ tl) :
    ∃ e ∈ groupTokens tl, entryHasTok e t := by
  cases hpk : placeKey t with
  | none =>
    have hu : t ∈ (buildGroups tl).2 := by
      rw [show (buildGroups tl).2 = (tl.foldl buildStep ([], [])).2 from rfl,
        foldl_buildStep_ungrouped tl [] [], List.nil_append]
      exact List.mem_filter.mpr ⟨h, by simp [hpk]⟩
    have hpos : (buildGroups tl).2.length > 0 := List.length_pos.mpr (by
      intro hnil
      rw [hnil] at hu
      exact absurd hu (List.not_mem_nil t))
    refine ⟨GroupEntry.ungrouped (buildGroups tl).2, ?_, hu⟩
    rw [groupTokens_eq, if_pos hpos]
    exact List.mem_append_right _ (List.mem_singleton.mpr rfl)
  | some p =>
    obtain ⟨g, k⟩ := p
    have hb : t ∈ lookB (buildGroups tl).1 g k := by
      rw [show (buildGroups tl).1 = (tl.foldl buildStep ([], [])).1 from rfl,
        foldl_buildStep_lookB tl [] [] g k]
      exact List.mem_append_right _ (List.mem_filter.mpr ⟨h, by simp [hpk]⟩)
    have hk : k ∈ sKeys (lookSub (buildGroups tl).1 g) := by
      by_contra hk
      rw [lookB, lookS_of_not_mem _ _ hk] at hb
      exact absurd hb (List.not_mem_nil t)
    have hg : g ∈ gKeys (buildGroups tl).1 := by
      by_contra hg
      rw [lookB, lookSub_of_not_mem _ _ hg] at hb
      exact absurd hb (List.not_mem_nil t)
    refine ⟨GroupEntry.grouped g (mkSubEntries (lookSub (buildGroups tl).1 g)), ?_, ?_⟩
    · rw [groupTokens_eq]
      refine List.mem_append_left _ (List.mem_map.mpr ⟨g, ?_, rfl⟩)
      exact (List.mem_insertionSort _).mpr hg
    · refine ⟨(if k = noneKey then none else some k,
        lookS (lookSub (buildGroups tl).1 g) k), ?_, hb⟩
      exact List.mem_map.mpr ⟨k, (List.mem_insertionSort _).mpr hk, rfl⟩

/-! ### Shape of `parseTokenName` -/

theorem splitSep_ne_nil (sep : Char) (l : List Char) : splitSep sep l ≠ [] := by
  cases l with
  | nil => simp [splitSep]
  | cons c rest =>
    simp only [splitSep]
    by_cases h : c = sep
    · simp [h]
    · simp only [if_neg h]
      cases splitSep sep rest <;> simp

theorem splitSep_singleton {sep : Char} {l : List Char} {x : List Char}
    (h : splitSep sep l = [x]) : x = l := by
  induction l generalizing x with
  | nil =>
    simp [splitSep] at h
    exact h
  | cons c rest ih =>
    simp only [splitSep] at h
    by_cases hc : c = sep
    · rw [if_pos hc] at h
      obtain ⟨h1, h2⟩ := List.cons_eq_cons.mp h
      exact absurd h2 (splitSep_ne_nil sep rest)
    · rw [if_neg hc] at h
      cases hr : splitSep sep rest with
      | nil => exact absurd hr (splitSep_ne_nil sep rest)
      | cons h0 t =>
        rw [hr] at h
        obtain ⟨h1, h2⟩ := List.cons_eq_cons.mp h
        have := ih (x := h0) (by rw [hr, h2])
        rw [← h1, this]

theorem toList_asString (s : String) : s.toList.asString = s := rfl

/-- The display name of a parsed token name is always the last path
segment, and the groups are always all segments but the last — also in
the single-segment case, where both sides degenerate. -/
theorem parseTokenName_shape (t : Tok) :
    parseTokenName t =
      ⟨(jsSplit '/' (tokenNameOf t)).dropLast,
        (jsSplit '/' (tokenNameOf t)).getLastD ""⟩ := by
  unfold parseTokenName
  by_cases h : (jsSplit '/' (tokenNameOf t)).length = 1
  · rw [if_pos h]
    obtain ⟨x, hx⟩ := List.length_eq_one.mp h
    have hxval : x = tokenNameOf t := by
      unfold jsSplit at hx
      cases hsp : splitSep '/' (tokenNameOf t).toList with
      | nil => exact absurd hsp (splitSep_ne_nil _ _)
      | cons y ys =>
        rw [hsp] at hx
        simp at hx
        obtain ⟨h1, h2⟩ := hx
        have : y = (tokenNameOf t).toList :=
          splitSep_singleton (by rw [hsp, h2])
        rw [← h1, this, toList_asString]
    rw [hx, hxval]
    simp
  · rw [if_neg h]

/-! ### Concrete fixtures used by the claim instances -/

def tokTextPrimary : Tok := { id := 1, label := some "Text/Primary" }

def tokTextSecondary : Tok := { id := 2, label := some "Text/Secondary" }

def tokPrimaryBlue : Tok := { id := 3, label := some "Primary Blue" }

def tokBlue : Tok := { id := 4, label := some "Primary Blue", value := some "#0000ff" }

def tokGapS : Tok := { id := 5, label := some "Gap S", value := some "8" }

def catColourEx : Category := ⟨"colour", "Colour tokens", "#8b5cf6", [tokBlue]⟩

/-- Catalogue snapshot with all three categories populated. -/
def pFull : TokensProp :=
  { colors := [tokBlue], typography := [tokTextPrimary], spacing := [tokGapS] }

/-- The same snapshot after the spacing tokens disappeared. -/
def pNoSpacing : TokensProp :=
  { colors := [tokBlue], typography := [tokTextPrimary] }

/-- A buffer holding the text `hi /pri` with the menu open on the
trigger at offset 3, filter `pri`, caret at the end, and the colour
category active. -/
def stTrig : EditorState :=
  { children := [BufNode.text "hi /pri"],
    caret := CaretPos.inText 0 7,
    showMenu := true,
    activeCategory := some catColourEx,
    filter := "pri",
    selectedIndex := 0,
    slashPosition := some (0, 3) }

/-- An empty editor. -/
def stInit : EditorState :=
  { children := [BufNode.text ""],
    caret := CaretPos.inText 0 0,
    showMenu := false,
    activeCategory := none,
    filter := "",
    selectedIndex := 0,
    slashPosition := none }

/-- Open the menu by typing the trigger, then navigate down twice, all
under the full snapshot. -/
def stTrace : EditorState :=
  run [(pFull, Ev.typed '/'), (pFull, Ev.key Key.arrowDown),
       (pFull, Ev.key Key.arrowDown)] stInit

/-- C5: for every token list the normalizer uses exactly the first two
path segments for group and subgroup and the last segment as display
name (conjuncts 1 and 2: the parsed display name is always the last
segment, and each subgroup bucket is exactly the input filtered by the
first-two-segment placement, in input order); the ungrouped tokens form a
trailing bucket with a `null` group label (conjuncts 3 and 4); group
labels sort lexicographically and within each group the implicit `null`
subgroup comes first with the named subgroups in lexicographic order
(conjuncts 5 and 6); every input token is placed (conjunct 7); and the
catalogue `Text/Primary, Text/Secondary, Primary Blue` yields a `Text`
group whose implicit subgroup holds the two `Text` tokens, followed by a
`null` group holding `Primary Blue` (conjunct 8). -/
theorem C5_groupTree :
    (∀ t : Tok,
      parseTokenName t =
        ⟨(jsSplit '/' (tokenNameOf t)).dropLast,
          (jsSplit '/' (tokenNameOf t)).getLastD ""⟩) ∧
    (∀ (tl : List Tok) (g : String) (subs : List (Option String × List Tok))
        (lab : Option String) (toks : List Tok),
      GroupEntry.grouped g subs ∈ groupTokens tl → (lab, toks) ∈ subs →
        toks = tl.filter (fun t => decide (placeKey t = some (g, labKey lab)))) ∧
    (∀ (tl u : List Tok),
      GroupEntry.ungrouped u ∈ groupTokens tl →
        u = tl.filter (fun t => decide (placeKey t = none)) ∧
          (groupTokens tl).getLast? = some (GroupEntry.ungrouped u)) ∧
    (∀ (tl : List Tok) (e : GroupEntry),
      e ∈ (groupTokens tl).dropLast → ∃ g subs, e = GroupEntry.grouped g subs) ∧
    (∀ tl : List Tok,
      List.Sorted (fun a b : String => a ≤ b) (groupLabelsOf (groupTokens tl))) ∧
    (∀ (tl : List Tok) (g : String) (subs : List (Option String × List Tok)),
      GroupEntry.grouped g subs ∈ groupTokens tl →
        List.Sorted optLe (subs.map Prod.fst)) ∧
    (∀ (tl : List Tok) (t : Tok),
      t ∈ tl → ∃ e ∈ groupTokens tl, entryHasTok e t) ∧
    groupTokens [tokTextPrimary, tokTextSecondary, tokPrimaryBlue] =
      [GroupEntry.grouped "Text" [(none, [tokTextPrimary, tokTextSecondary])],
       GroupEntry.ungrouped [tokPrimaryBlue]] :=
  ⟨parseTokenName_shape,
   fun _ _ _ _ _ h h2 => groupTokens_bucket h h2,
   fun _ _ h => groupTokens_ungrouped h,
   fun _ _ h => groupTokens_trailing h,
   groupTokens_groups_sorted,
   fun _ _ _ h => groupTokens_subs_sorted h,
   fun _ _ h => groupTokens_complete h,
   by decide⟩

/-- Witness for C5 at the concrete catalogue of the scenario: the bucket
equations instantiated on the scenario output. -/
theorem C5_groupTree_witness :
    ([tokTextPrimary, tokTextSecondary] : List Tok) =
      ([tokTextPrimary, tokTextSecondary, tokPrimaryBlue]).filter
        (fun t => decide (placeKey t = some ("Text", labKey none))) ∧
    ([tokPrimaryBlue] : List Tok) =
      ([tokTextPrimary, tokTextSecondary, tokPrimaryBlue]).filter
        (fun t => decide (placeKey t = none)) := by
  constructor
  · exact C5_groupTree.2.1 [tokTextPrimary, tokTextSecondary, tokPrimaryBlue]
      "Text" [(none, [tokTextPrimary, tokTextSecondary])] none
      [tokTextPrimary, tokTextSecondary] (by decide) (by decide)
  · exact (C5_groupTree.2.2.1 [tokTextPrimary, tokTextSecondary, tokPrimaryBlue]
      [tokPrimaryBlue] (by decide)).1

/-- C6: the visible items are exactly the items whose display label
contains the live filter text as a case-insensitive substring — at token
level the label of every token of the active category, at the top level
the category labels with the additional condition that a category with
zero tokens is never shown; and the scenario with three colour tokens, no
typography and no spacing under filter `col` shows exactly the colour
row. -/
theorem C6_visible_filter :
    (∀ (p : TokensProp) (f : String) (c : Category),
      c ∈ currentCategoryItems p f ↔
        c ∈ categoriesOf p ∧ c.tokens ≠ [] ∧
          jsIncludes (strLower c.label) (strLower f) = true) ∧
    (∀ (c : Category) (f : String) (t : Tok),
      t ∈ getFilteredTokens c f ↔
        t ∈ c.tokens ∧ jsIncludes (strLower (tokenNameOf t)) (strLower f) = true) ∧
    currentCategoryItems
        { colors := [tokBlue, tokTextPrimary, tokGapS], typography := [], spacing := [] }
        "col" =
      [⟨"colour", "Colour tokens", "#8b5cf6", [tokBlue, tokTextPrimary, tokGapS]⟩] := by
  refine ⟨fun p f c => ?_, fun c f t => ?_, by decide⟩
  · rw [currentCategoryItems, List.mem_filter]
    constructor
    · rintro ⟨h1, h2⟩
      by_cases hz : c.tokens.length = 0
      · rw [if_pos hz] at h2
        exact absurd h2 (by simp)
      · rw [if_neg hz] at h2
        exact ⟨h1, by simpa [← List.length_eq_zero] using hz, h2⟩
    · rintro ⟨h1, h2, h3⟩
      refine ⟨h1, ?_⟩
      rw [if_neg (by simpa [List.length_eq_zero] using h2)]
      exact h3
  · rw [getFilteredTokens, List.mem_filter]

/-- Witness for C6 at a concrete category and filter. -/
theorem C6_visible_filter_witness :
    tokBlue ∈ getFilteredTokens catColourEx "blue" ∧
    (⟨"colour", "Colour tokens", "#8b5cf6", [tokBlue]⟩ : Category) ∈
      currentCategoryItems { colors := [tokBlue] } "col" := by
  constructor
  · exact (C6_visible_filter.2.1 catColourEx "blue" tokBlue).mpr
      ⟨by decide, by decide⟩
  · exact (C6_visible_filter.1 { colors := [tokBlue] } "col"
      ⟨"colour", "Colour tokens", "#8b5cf6", [tokBlue]⟩).mpr
      ⟨by decide, by decide, by decide⟩

/-- C7: with the menu open over a non-empty visible list of length `n`
and a valid selection index, the next command wraps from `n - 1` to `0`
and otherwise moves down by one, and the previous command wraps from `0`
to `n - 1` and otherwise moves up by one; the list navigated is the one
`itemCount` measures — the visible category rows at top level and the
flattened grouped token list inside a category. -/
theorem C7_navigation_wraps (p : TokensProp) (st : EditorState)
    (hm : st.showMenu = true)
    (h0 : 0 ≤ st.selectedIndex)
    (h1 : st.selectedIndex < (itemCount p st : Int)) :
    ((handleKeyDown p Key.arrowDown st).2.selectedIndex =
      (if st.selectedIndex = (itemCount p st : Int) - 1 then 0
       else st.selectedIndex + 1)) ∧
    ((handleKeyDown p Key.arrowUp st).2.selectedIndex =
      (if st.selectedIndex = 0 then (itemCount p st : Int) - 1
       else st.selectedIndex - 1)) := by
  constructor
  · simp only [handleKeyDown, hm]
    split_ifs <;> simp_all
    all_goals omega
  · simp only [handleKeyDown, hm]
    split_ifs <;> simp_all
    all_goals omega

/-- Witness for C7: at the top level with three visible categories and
selection on the last row, ArrowDown wraps to the first row and ArrowUp
moves up one. -/
theorem C7_navigation_wraps_witness :
    (handleKeyDown pFull Key.arrowDown { stInit with showMenu := true, selectedIndex := 2 }).2.selectedIndex = 0 ∧
    (handleKeyDown pFull Key.arrowUp { stInit with showMenu := true, selectedIndex := 2 }).2.selectedIndex = 1 := by
  have h := C7_navigation_wraps pFull
    { stInit with showMenu := true, selectedIndex := 2 }
    (by decide) (by decide) (by decide)
  refine ⟨?_, ?_⟩
  · rw [h.1]
    decide
  · rw [h.2]
    decide

/-- C8: submitting an editor whose plain text trims to the empty string
calls nothing and leaves the whole state untouched; otherwise the
submission callback receives the trimmed plain text together with the
trimmed marked-up form. -/
theorem C8_submit_empty (st : EditorState) :
    (jsTrim (plainTextOf st.children) = "" → handleSubmit st = (none, st)) ∧
    (jsTrim (plainTextOf st.children) ≠ "" →
      (handleSubmit st).1 =
        some (jsTrim (plainTextOf st.children), jsTrim (markupOf st.children))) := by
  constructor
  · intro h
    simp [handleSubmit, h]
  · intro h
    simp [handleSubmit, h]

/-- Witness for C8: a whitespace-only buffer is not submitted and stays
as it is; a buffer holding text is submitted trimmed. -/
theorem C8_submit_empty_witness :
    handleSubmit { stInit with children := [BufNode.text "  "] } =
      (none, { stInit with children := [BufNode.text "  "] }) ∧
    (handleSubmit { stInit with children := [BufNode.text " hi "] }).1 =
      some ("hi", "hi") := by
  constructor
  · exact (C8_submit_empty _).1 (by decide)
  · have h := (C8_submit_empty { stInit with children := [BufNode.text " hi "] }).2
      (by decide)
    rw [h]
    decide

/-- C9: invoking the splice engine with no recorded trigger position is a
complete no-op — buffer, caret and every state field are unchanged — for
every token and category. -/
theorem C9_insert_no_trigger (t : Tok) (c : Category) (st : EditorState)
    (h : st.slashPosition = none) : insertToken t c st = st := by
  unfold insertToken
  rw [h]

/-- Witness for C9 on the empty editor. -/
theorem C9_insert_no_trigger_witness :
    insertToken tokBlue catColourEx stInit = stInit :=
  C9_insert_no_trigger tokBlue catColourEx stInit (by decide)

/-! ### The splice engine characterized (towards claims C1 and C2) -/

/-- The run following the inserted tag is never empty: it is the text
from the caret onwards, or the one-character space placeholder. -/
theorem afterText_length_pos (s : String) (off : Nat) :
    (if strDrop s off = "" then " " else strDrop s off).length > 0 := by
  by_cases h : strDrop s off = ""
  · rw [if_pos h]
    decide
  · rw [if_neg h]
    cases hl : s.toList.drop off with
    | nil =>
      exact absurd (by rw [strDrop, hl]; rfl) h
    | cons c cs =>
      rw [strDrop, hl]
      show 0 < (c :: cs).length
      simp

/-- Unfolding equation of `insertToken` on a live trigger: the run
holding the trigger is replaced by the text before the trigger character,
the tag, and the remaining text from the caret on (space placeholder when
empty); the caret lands at offset 1 of that following run — one position
past the boundary after the tag; menu, active category and trigger
position are cleared, while the filter and the selection index are left
unchanged. -/
theorem insertToken_spec (tok : Tok) (cat : Category) (st : EditorState)
    (i a off : Nat) (s : String)
    (h1 : st.slashPosition = some (i, a))
    (h2 : st.children.get? i = some (BufNode.text s))
    (h3 : st.caret = CaretPos.inText i off) :
    insertToken tok cat st =
      { st with
        children :=
          st.children.take i ++
            [BufNode.text (strTake s a),
             BufNode.tag cat.id (insertTokenName tok) (tokenValueStr cat tok),
             BufNode.text (if strDrop s off = "" then " " else strDrop s off)] ++
            st.children.drop (i + 1),
        caret := CaretPos.inText (i + 2) 1,
        showMenu := false,
        activeCategory := none,
        slashPosition := none } := by
  unfold insertToken
  rw [h1]
  dsimp only
  rw [h2]
  dsimp only
  rw [h3]
  dsimp only
  rw [if_pos (afterText_length_pos s off)]

/-- C2 (amended): with a live trigger, `insertToken` deletes the span
from the anchor (trigger character included) through the caret, inserts a
single token tag in its place with the category-specific tooltip value,
closes the menu, clears the active category and the trigger position, and
leaves the caret at offset 1 of the following text run — one position
past the reference, after the space placeholder when no text followed.
The filter text survives the insertion; it is only reset when a menu
opens or a cancellation runs. -/
theorem C2_splice (tok : Tok) (cat : Category) (st : EditorState)
    (i a off : Nat) (s : String)
    (h1 : st.slashPosition = some (i, a))
    (h2 : st.children.get? i = some (BufNode.text s))
    (h3 : st.caret = CaretPos.inText i off) :
    insertToken tok cat st =
      { st with
        children :=
          st.children.take i ++
            [BufNode.text (strTake s a),
             BufNode.tag cat.id (insertTokenName tok) (tokenValueStr cat tok),
             BufNode.text (if strDrop s off = "" then " " else strDrop s off)] ++
            st.children.drop (i + 1),
        caret := CaretPos.inText (i + 2) 1,
        showMenu := false,
        activeCategory := none,
        slashPosition := none } ∧
    (insertToken tok cat st).filter = st.filter ∧
    (insertToken tok cat st).caret ≠ CaretPos.inText (i + 2) 0 := by
  have h := insertToken_spec tok cat st i a off s h1 h2 h3
  refine ⟨h, ?_, ?_⟩
  · rw [h]
  · rw [h]
    simp

/-- Counterexample for C2 as stated: inserting `Primary Blue` over the
trigger span of `hi /pri` produces the expected splice, but the filter
text `pri` is not cleared (the claimed TriggerState clearing fails on its
`filterText` component) and the caret is set at offset 1 of the following
run — after the space placeholder — not at the position immediately after
the reference (offset 0). -/
theorem C2_splice_cex :
    insertToken tokBlue catColourEx stTrig =
      { children := [BufNode.text "hi ",
                     BufNode.tag "colour" "Primary Blue" "#0000ff",
                     BufNode.text " "],
        caret := CaretPos.inText 2 1,
        showMenu := false,
        activeCategory := none,
        filter := "pri",
        selectedIndex := 0,
        slashPosition := none } ∧
    ¬((insertToken tokBlue catColourEx stTrig).filter = "" ∧
      (insertToken tokBlue catColourEx stTrig).caret = CaretPos.inText 2 0) := by
  decide

/-- Witness for C2 (amended) at the concrete trigger state. -/
theorem C2_splice_witness :
    insertToken tokBlue catColourEx stTrig =
      { children := [BufNode.text "hi ",
                     BufNode.tag "colour" "Primary Blue" "#0000ff",
                     BufNode.text " "],
        caret := CaretPos.inText 2 1,
        showMenu := false,
        activeCategory := none,
        filter := "pri",
        selectedIndex := 0,
        slashPosition := none } := by
  have h := (C2_splice tokBlue catColourEx stTrig 0 3 7 "hi /pri"
    (by decide) (by decide) (by decide)).1
  rw [h]
  decide

/-- C1 (amended): the backward-delete guard removes a token reference
whole.  First conjunct: with the menu closed and the collapsed caret at
offset 0 of the run directly after a token tag, one Backspace removes the
entire tag in one step, the event is consumed (no character deletion),
and the caret stays at the boundary where the reference stood —
immediately after the preceding text — for every category of tag.
Second conjunct: immediately after an insertion the caret is NOT at that
boundary but one position later (offset 1, after the space placeholder),
so the first Backspace after inserting a token is not consumed by the
guard and the reference survives it; only a second Backspace, once the
caret reaches offset 0, removes the reference atomically. -/
theorem C1_atomic_delete :
    (∀ (p : TokensProp) (st : EditorState) (idx : Nat) (ty v ti : String),
      st.showMenu = false →
      st.caret = CaretPos.inText idx 0 →
      0 < idx →
      st.children.get? (idx - 1) = some (BufNode.tag ty v ti) →
      handleKeyDown p Key.backspace st =
        (true, { st with
          children := st.children.eraseIdx (idx - 1),
          caret := CaretPos.inText (idx - 1) 0 })) ∧
    (∀ (p : TokensProp) (tok : Tok) (cat : Category) (st : EditorState)
        (i a off : Nat) (s : String),
      st.slashPosition = some (i, a) →
      st.children.get? i = some (BufNode.text s) →
      st.caret = CaretPos.inText i off →
      handleKeyDown p Key.backspace (insertToken tok cat st) =
        (false, insertToken tok cat st)) := by
  constructor
  · intro p st idx ty v ti hm hc hpos hprev
    cases idx with
    | zero => exact absurd hpos (by decide)
    | succ n =>
      simp only [handleKeyDown, hm, backspaceGuard, hc]
      simp only [Nat.succ_sub_one] at hprev ⊢
      rw [hprev]
      simp
  · intro p tok cat st i a off s h1 h2 h3
    have hins := insertToken_spec tok cat st i a off s h1 h2 h3
    rw [hins]
    simp only [handleKeyDown, backspaceGuard]
    rfl

/-- Counterexample for C1 as stated: after inserting `Primary Blue` the
single backward-delete is not consumed (the guard does not fire because
the caret is at offset 1, past the placeholder), the state is unchanged,
and in particular the token reference is still in the buffer. -/
theorem C1_atomic_delete_cex :
    (handleKeyDown pFull Key.backspace (insertToken tokBlue catColourEx stTrig)).1
        = false ∧
    (handleKeyDown pFull Key.backspace (insertToken tokBlue catColourEx stTrig)).2
        = insertToken tokBlue catColourEx stTrig ∧
    (insertToken tokBlue catColourEx stTrig).children.get? 1 =
      some (BufNode.tag "colour" "Primary Blue" "#0000ff") := by
  decide

/-- Witness for C1 (amended): the guard consumes the delete and removes
the tag whole when the caret sits at offset 0 right after it, and does
not fire right after an insertion. -/
theorem C1_atomic_delete_witness :
    handleKeyDown pFull Key.backspace
        { stTrig with
          children := [BufNode.text "hi ",
                       BufNode.tag "colour" "Primary Blue" "#0000ff",
                       BufNode.text " "],
          caret := CaretPos.inText 2 0,
          showMenu := false } =
      (true, { stTrig with
        children := [BufNode.text "hi ", BufNode.text " "],
        caret := CaretPos.inText 1 0,
        showMenu := false }) ∧
    handleKeyDown pFull Key.backspace (insertToken tokBlue catColourEx stTrig) =
      (false, insertToken tokBlue catColourEx stTrig) := by
  constructor
  · have h := C1_atomic_delete.1 pFull
      { stTrig with
        children := [BufNode.text "hi ",
                     BufNode.tag "colour" "Primary Blue" "#0000ff",
                     BufNode.text " "],
        caret := CaretPos.inText 2 0,
        showMenu := false }
      2 "colour" "Primary Blue" "#0000ff" (by decide) (by decide) (by decide)
      (by decide)
    rw [h]
    decide
  · exact C1_atomic_delete.2 pFull tokBlue catColourEx stTrig 0 3 7 "hi /pri"
      (by decide) (by decide) (by decide)

/-! ### Trigger cancellation (towards claim C3) -/

theorem lt_length_of_get? {α : Type} {l : List α} {i : Nat} {x : α}
    (h : l.get? i = some x) : i < l.length := by
  induction l generalizing i with
  | nil => simp [List.get?] at h
  | cons y ys ih =>
    cases i with
    | zero => simp
    | succ n =>
      simp only [List.get?] at h
      have := ih h
      simpa using Nat.succ_lt_succ this

theorem get?_set_self {α : Type} {l : List α} {i : Nat} {x y : α}
    (h : l.get? i = some x) : (l.set i y).get? i = some y := by
  induction l generalizing i with
  | nil => simp [List.get?] at h
  | cons z zs ih =>
    cases i with
    | zero => rfl
    | succ n =>
      simp only [List.get?, List.set] at h ⊢
      exact ih h

/-- The typed character sits at its insertion offset. -/
theorem get?_insert_self (l : List Char) (off : Nat) (c : Char)
    (h : off ≤ l.length) :
    (l.take off ++ c :: l.drop off).get? off = some c := by
  have hlen : (l.take off).length = off := by
    simp [List.length_take]
    omega
  rw [List.get?_append_right (by omega)]
  simp [hlen]

/-- A space typed strictly inside the filter span shows up in the
recomputed filter substring. -/
theorem jsSubstring_space (s : String) (a off : Nat)
    (ha : a < off) (hoff : off ≤ s.toList.length) :
    (jsSubstring (strInsert s off ' ') (a + 1) (off + 1)).toList.contains ' ' = true := by
  have hl : (strInsert s off ' ').toList =
      s.toList.take off ++ ' ' :: s.toList.drop off := rfl
  have hlen : (strInsert s off ' ').toList.length = s.toList.length + 1 := by
    rw [hl]
    simp [List.length_take, List.length_drop]
    omega
  unfold jsSubstring
  have hmina : min (a + 1) ((strInsert s off ' ').toList.length) = a + 1 := by
    omega
  have hminb : min (off + 1) ((strInsert s off ' ').toList.length) = off + 1 := by
    omega
  simp only [hmina, hminb, if_pos (by omega : a + 1 ≤ off + 1)]
  have htake : (strInsert s off ' ').toList.take (off + 1) =
      s.toList.take off ++ [' '] := by
    rw [hl, List.take_append_eq_append_take]
    have h1 : (s.toList.take off).take (off + 1) = s.toList.take off :=
      List.take_of_length_le (by rw [List.length_take]; omega)
    have h2 : off + 1 - (s.toList.take off).length = 1 := by
      rw [List.length_take]
      omega
    rw [h1, h2]
    rfl
  rw [htake]
  have hdrop : (s.toList.take off ++ [' ']).drop (a + 1) =
      (s.toList.take off).drop (a + 1) ++ [' '] := by
    rw [List.drop_append_eq_append_drop]
    have h3 : a + 1 - (s.toList.take off).length = 0 := by
      rw [List.length_take]
      omega
    rw [h3]
    rfl
  show (((s.toList.take off ++ [' ']).drop (a + 1)).asString).toList.contains ' ' = true
  rw [show (((s.toList.take off ++ [' ']).drop (a + 1)).asString).toList =
      (s.toList.take off ++ [' ']).drop (a + 1) from rfl]
  rw [hdrop]
  simp

/-- A space typed with the caret strictly after the anchor cancels the
trigger: the menu closes, the active category and filter are cleared, the
buffer keeps all its text (the space is inserted, nothing is removed) and
the trigger position is left in place. -/
theorem typeChar_space_cancel (st : EditorState) (i a off : Nat) (s : String)
    (hm : st.showMenu = true)
    (h1 : st.slashPosition = some (i, a))
    (h2 : st.children.get? i = some (BufNode.text s))
    (h3 : st.caret = CaretPos.inText i off)
    (ha : a < off) (hoff : off ≤ s.toList.length) :
    typeChar ' ' st =
      { st with
        children := st.children.set i (BufNode.text (strInsert s off ' ')),
        caret := CaretPos.inText i (off + 1),
        showMenu := false,
        activeCategory := none,
        filter := "" } := by
  unfold typeChar
  rw [h3]
  dsimp only
  rw [h2]
  dsimp only
  unfold handleInput
  dsimp only
  rw [get?_set_self h2]
  dsimp only
  rw [if_neg (Nat.succ_ne_zero off), Nat.add_sub_cancel]
  rw [show (strInsert s off ' ').toList =
      s.toList.take off ++ ' ' :: s.toList.drop off from rfl]
  rw [get?_insert_self s.toList off ' ' hoff]
  rw [if_neg (by decide : ¬ (some ' ' = some '/'))]
  rw [hm, h1]
  dsimp only
  rw [jsSubstring_space s a off ha hoff]
  rfl

/-- An input event whose caret ends at or before the anchor cancels the
trigger the same way (this is the only way the caret-before-anchor
condition is ever checked: the handler runs on input events only). -/
theorem typeChar_before_anchor_cancel (st : EditorState) (i a off : Nat)
    (s : String) (c : Char)
    (hm : st.showMenu = true)
    (h1 : st.slashPosition = some (i, a))
    (h2 : st.children.get? i = some (BufNode.text s))
    (h3 : st.caret = CaretPos.inText i off)
    (hc : c ≠ '/') (hbefore : off + 1 ≤ a) (hoff : off ≤ s.toList.length) :
    typeChar c st =
      { st with
        children := st.children.set i (BufNode.text (strInsert s off c)),
        caret := CaretPos.inText i (off + 1),
        showMenu := false,
        activeCategory := none,
        filter := "" } := by
  unfold typeChar
  rw [h3]
  dsimp only
  rw [h2]
  dsimp only
  unfold handleInput
  dsimp only
  rw [get?_set_self h2]
  dsimp only
  rw [if_neg (Nat.succ_ne_zero off), Nat.add_sub_cancel]
  rw [show (strInsert s off c).toList =
      s.toList.take off ++ c :: s.toList.drop off from rfl]
  rw [get?_insert_self s.toList off c hoff]
  rw [if_neg (by simpa using hc : ¬ (some c = some '/'))]
  rw [hm, h1]
  dsimp only
  have hb : decide (off + 1 ≤ a) = true := by
    simp [hbefore]
  rw [hb, Bool.or_true]
  rfl

/-- Escape with the menu open at top level closes it; the buffer and the
trigger position are untouched. -/
theorem escape_top_closes (p : TokensProp) (st : EditorState)
    (hm : st.showMenu = true) (hcat : st.activeCategory = none) :
    handleKeyDown p Key.escape st = (true, { st with showMenu := false }) := by
  simp [handleKeyDown, hm, hcat]

/-- Escape with an active category does not close the menu: it returns to
the top-level category list, resetting selection and filter. -/
theorem escape_category_back (p : TokensProp) (st : EditorState)
    (c : Category)
    (hm : st.showMenu = true) (hcat : st.activeCategory = some c) :
    handleKeyDown p Key.escape st =
      (true, { st with activeCategory := none, selectedIndex := 0, filter := "" }) := by
  simp [handleKeyDown, hm, hcat]

/-- C3 (amended): the cancellation behaviour of an active trigger.
A space character typed strictly inside the filter span, or any input
event that leaves the caret at or before the anchor, closes the menu and
clears the active category and the filter text — but the anchor
(`slashPosition`) is retained until a successful insertion, and the
buffer keeps the literal trigger character and filter text (the edit only
adds the typed character).  Escape closes the menu only when no category
is active; with an active category it returns to the top-level list with
the menu still open.  Only the literal space cancels through the filter
span: the check is for the space character, not for whitespace in
general. -/
theorem C3_cancellation :
    (∀ (st : EditorState) (i a off : Nat) (s : String),
      st.showMenu = true →
      st.slashPosition = some (i, a) →
      st.children.get? i = some (BufNode.text s) →
      st.caret = CaretPos.inText i off →
      a < off → off ≤ s.toList.length →
      typeChar ' ' st =
        { st with
          children := st.children.set i (BufNode.text (strInsert s off ' ')),
          caret := CaretPos.inText i (off + 1),
          showMenu := false,
          activeCategory := none,
          filter := "" }) ∧
    (∀ (st : EditorState) (i a off : Nat) (s : String) (c : Char),
      st.showMenu = true →
      st.slashPosition = some (i, a) →
      st.children.get? i = some (BufNode.text s) →
      st.caret = CaretPos.inText i off →
      c ≠ '/' → off + 1 ≤ a → off ≤ s.toList.length →
      typeChar c st =
        { st with
          children := st.children.set i (BufNode.text (strInsert s off c)),
          caret := CaretPos.inText i (off + 1),
          showMenu := false,
          activeCategory := none,
          filter := "" }) ∧
    (∀ (p : TokensProp) (st : EditorState),
      st.showMenu = true → st.activeCategory = none →
      handleKeyDown p Key.escape st = (true, { st with showMenu := false })) ∧
    (∀ (p : TokensProp) (st : EditorState) (c : Category),
      st.showMenu = true → st.activeCategory = some c →
      handleKeyDown p Key.escape st =
        (true, { st with activeCategory := none, selectedIndex := 0, filter := "" })) :=
  ⟨typeChar_space_cancel,
   fun st i a off s c hm h1 h2 h3 hc hb hoff =>
     typeChar_before_anchor_cancel st i a off s c hm h1 h2 h3 hc hb hoff,
   escape_top_closes,
   escape_category_back⟩

/-- Counterexample for C3 as stated: with the colour category active,
Escape leaves the menu open (it only goes back to the category list); a
tab — whitespace — typed inside the filter span does not cancel and even
becomes part of the filter; and after a space does cancel, the anchor
`slashPosition` is not destroyed. -/
theorem C3_cancellation_cex :
    ((handleKeyDown pFull Key.escape stTrig).2.showMenu = true) ∧
    ((handleKeyDown pFull Key.escape stTrig).2.slashPosition = some (0, 3)) ∧
    ((typeChar '\t' stTrig).showMenu = true ∧ (typeChar '\t' stTrig).filter = "pri\t") ∧
    ((typeChar ' ' stTrig).showMenu = false ∧
      (typeChar ' ' stTrig).slashPosition = some (0, 3)) := by
  decide

/-- Witness for C3 (amended) at the concrete trigger state: the space
cancellation and the two Escape behaviours instantiated. -/
theorem C3_cancellation_witness :
    typeChar ' ' stTrig =
      { children := [BufNode.text "hi /pri "],
        caret := CaretPos.inText 0 8,
        showMenu := false,
        activeCategory := none,
        filter := "",
        selectedIndex := 0,
        slashPosition := some (0, 3) } ∧
    handleKeyDown pFull Key.escape stTrig =
      (true, { stTrig with activeCategory := none, selectedIndex := 0, filter := "" }) := by
  constructor
  · have h := C3_cancellation.1 stTrig 0 3 7 "hi /pri"
      (by decide) (by decide) (by decide) (by decide) (by decide) (by decide)
    rw [h]
    decide
  · exact C3_cancellation.2.2.2 pFull stTrig catColourEx (by decide) (by decide)

/-! ### The selection-index invariant (towards claim C4) -/

/-- The selection-index invariant of the spec: whenever the visible list
is non-empty, `selectedIndex` is a valid index into it. -/
def menuInv (p : TokensProp) (st : EditorState) : Prop :=
  itemCount p st ≠ 0 →
    0 ≤ st.selectedIndex ∧ st.selectedIndex < (itemCount p st : Int)

instance (p : TokensProp) (st : EditorState) : Decidable (menuInv p st) := by
  unfold menuInv
  infer_instance

theorem menuInv_of_zero {p : TokensProp} {st : EditorState}
    (h : st.selectedIndex = 0) : menuInv p st := by
  intro hn
  rw [h]
  refine ⟨le_refl 0, ?_⟩
  have := Nat.pos_of_ne_zero hn
  omega

theorem itemCount_congr {p : TokensProp} {s1 s2 : EditorState}
    (hc : s1.activeCategory = s2.activeCategory) (hf : s1.filter = s2.filter) :
    itemCount p s1 = itemCount p s2 := by
  unfold itemCount
  rw [hc, hf]

theorem menuInv_applyEffect {p : TokensProp} (old X : EditorState)
    (hold : menuInv p old) (hidx : X.selectedIndex = old.selectedIndex) :
    menuInv p (applyEffect old X) := by
  unfold applyEffect
  by_cases hc : X.filter ≠ old.filter ∨ X.activeCategory ≠ old.activeCategory
  · rw [if_pos hc]
    exact menuInv_of_zero rfl
  · rw [if_neg hc]
    push_neg at hc
    intro hn
    have hcnt : itemCount p X = itemCount p old := itemCount_congr hc.2 hc.1
    rw [hidx, hcnt]
    exact hold (by rwa [hcnt] at hn)

theorem menuInv_applyEffect_zero {p : TokensProp} (old X : EditorState)
    (h : X.selectedIndex = 0) : menuInv p (applyEffect old X) := by
  unfold applyEffect
  split
  · exact menuInv_of_zero rfl
  · exact menuInv_of_zero h

theorem handleInput_idx (st : EditorState) :
    (handleInput st).selectedIndex = st.selectedIndex := by
  unfold handleInput
  repeat'
    first
      | rfl
      | split
      | dsimp only

theorem typeChar_idx (c : Char) (st : EditorState) :
    (typeChar c st).selectedIndex = st.selectedIndex := by
  unfold typeChar
  repeat' split
  all_goals first
    | rfl
    | rw [handleInput_idx]

theorem insertToken_idx (t : Tok) (c : Category) (st : EditorState) :
    (insertToken t c st).selectedIndex = st.selectedIndex := by
  unfold insertToken
  repeat' split
  all_goals rfl

theorem handleSubmit_idx (st : EditorState) :
    (handleSubmit st).2.selectedIndex = st.selectedIndex := by
  unfold handleSubmit
  dsimp only
  split
  · rfl
  · rfl

theorem backspaceGuard_fields (st st' : EditorState)
    (h : backspaceGuard st = some st') :
    st'.selectedIndex = st.selectedIndex ∧ st'.filter = st.filter ∧
      st'.activeCategory = st.activeCategory := by
  unfold backspaceGuard at h
  repeat' split at h
  all_goals first
    | (injection h with h'
       subst h'
       exact ⟨rfl, rfl, rfl⟩)
    | simp at h

/-- Preservation: under a fixed catalogue snapshot, every editor
transition keeps the selection-index invariant. -/
theorem step_menuInv (p : TokensProp) (ev : Ev) (st : EditorState)
    (h : menuInv p st) : menuInv p (step p ev st) := by
  cases ev with
  | typed c =>
    exact menuInv_applyEffect st (typeChar c st) h (typeChar_idx c st)
  | key k =>
    show menuInv p (applyEffect st (handleKeyDown p k st).2)
    cases k with
    | backspace =>
      by_cases hm : st.showMenu = false
      · cases hg : backspaceGuard st with
        | none =>
          rw [show (handleKeyDown p Key.backspace st).2 = st by
            simp [handleKeyDown, hm, hg]]
          exact menuInv_applyEffect st st h rfl
        | some st' =>
          have hfields := backspaceGuard_fields st st' hg
          rw [show (handleKeyDown p Key.backspace st).2 = st' by
            simp [handleKeyDown, hm, hg]]
          exact menuInv_applyEffect st st' h hfields.1
      · simp only [Bool.not_eq_false] at hm
        cases hcat : st.activeCategory with
        | some c =>
          by_cases hf : st.filter = ""
          · have hstep : (handleKeyDown p Key.backspace st).2 =
                { st with activeCategory := none, selectedIndex := 0 } := by
              simp [handleKeyDown, hm, hcat, hf]
            rw [hstep]
            exact menuInv_applyEffect_zero st _ rfl
          · rw [show (handleKeyDown p Key.backspace st).2 = st by
              simp [handleKeyDown, hm, hcat, hf]]
            exact menuInv_applyEffect st st h rfl
        | none =>
          rw [show (handleKeyDown p Key.backspace st).2 = st by
            simp [handleKeyDown, hm, hcat]]
          exact menuInv_applyEffect st st h rfl
    | arrowDown =>
      by_cases hm : st.showMenu = false
      · rw [show (handleKeyDown p Key.arrowDown st).2 = st by
          simp [handleKeyDown, hm]]
        exact menuInv_applyEffect st st h rfl
      · simp only [Bool.not_eq_false] at hm
        rw [show (handleKeyDown p Key.arrowDown st).2 =
            { st with selectedIndex :=
              if st.selectedIndex < (itemCount p st : Int) - 1
              then st.selectedIndex + 1 else 0 } by
          simp [handleKeyDown, hm]]
        unfold applyEffect
        rw [if_neg (by simp)]
        intro hn
        have hcnt : itemCount p
            { st with selectedIndex :=
              if st.selectedIndex < (itemCount p st : Int) - 1
              then st.selectedIndex + 1 else 0 } = itemCount p st :=
          itemCount_congr rfl rfl
        rw [hcnt] at hn ⊢
        dsimp only
        obtain ⟨ha, hb⟩ := h hn
        have hpos := Nat.pos_of_ne_zero hn
        split_ifs <;> constructor <;> omega
    | arrowUp =>
      by_cases hm : st.showMenu = false
      · rw [show (handleKeyDown p Key.arrowUp st).2 = st by
          simp [handleKeyDown, hm]]
        exact menuInv_applyEffect st st h rfl
      · simp only [Bool.not_eq_false] at hm
        rw [show (handleKeyDown p Key.arrowUp st).2 =
            { st with selectedIndex :=
              if st.selectedIndex > 0
              then st.selectedIndex - 1 else (itemCount p st : Int) - 1 } by
          simp [handleKeyDown, hm]]
        unfold applyEffect
        rw [if_neg (by simp)]
        intro hn
        have hcnt : itemCount p
            { st with selectedIndex :=
              if st.selectedIndex > 0
              then st.selectedIndex - 1 else (itemCount p st : Int) - 1 } =
            itemCount p st :=
          itemCount_congr rfl rfl
        rw [hcnt] at hn ⊢
        dsimp only
        obtain ⟨ha, hb⟩ := h hn
        have hpos := Nat.pos_of_ne_zero hn
        split_ifs <;> constructor <;> omega
    | enter meta =>
      by_cases hm : st.showMenu = false
      · cases meta with
        | true =>
          rw [show (handleKeyDown p (Key.enter true) st).2 = (handleSubmit st).2 by
            simp [handleKeyDown, hm]]
          exact menuInv_applyEffect st _ h (handleSubmit_idx st)
        | false =>
          rw [show (handleKeyDown p (Key.enter false) st).2 = st by
            simp [handleKeyDown, hm]]
          exact menuInv_applyEffect st st h rfl
      · simp only [Bool.not_eq_false] at hm
        by_cases hn0 : itemCount p st > 0
        · cases hcat : st.activeCategory with
          | some c =>
            by_cases hi : 0 ≤ st.selectedIndex
            · cases hg : (flattenedTokens (groupTokens
                  (getFilteredTokens c st.filter)))[st.selectedIndex.toNat]? with
              | some t =>
                rw [show (handleKeyDown p (Key.enter meta) st).2 = insertToken t c st by
                  simp [handleKeyDown, hm, hn0, hcat, hi, hg]]
                exact menuInv_applyEffect st _ h (insertToken_idx t c st)
              | none =>
                rw [show (handleKeyDown p (Key.enter meta) st).2 = st by
                  simp [handleKeyDown, hm, hn0, hcat, hi, hg]]
                exact menuInv_applyEffect st st h rfl
            · rw [show (handleKeyDown p (Key.enter meta) st).2 = st by
                simp [handleKeyDown, hm, hn0, hcat, hi]]
              exact menuInv_applyEffect st st h rfl
          | none =>
            by_cases hi : 0 ≤ st.selectedIndex
            · cases hg : (currentCategoryItems p st.filter)[st.selectedIndex.toNat]? with
              | some c =>
                have hstep : (handleKeyDown p (Key.enter meta) st).2 =
                    { st with activeCategory := some c, selectedIndex := 0, filter := "" } := by
                  simp [handleKeyDown, hm, hn0, hcat, hi, hg]
                rw [hstep]
                exact menuInv_applyEffect_zero st _ rfl
              | none =>
                rw [show (handleKeyDown p (Key.enter meta) st).2 = st by
                  simp [handleKeyDown, hm, hn0, hcat, hi, hg]]
                exact menuInv_applyEffect st st h rfl
            · rw [show (handleKeyDown p (Key.enter meta) st).2 = st by
                simp [handleKeyDown, hm, hn0, hcat, hi]]
              exact menuInv_applyEffect st st h rfl
        · rw [show (handleKeyDown p (Key.enter meta) st).2 = st by
            simp [handleKeyDown, hm, hn0]]
          exact menuInv_applyEffect st st h rfl
    | escape =>
      by_cases hm : st.showMenu = false
      · rw [show (handleKeyDown p Key.escape st).2 = st by
          simp [handleKeyDown, hm]]
        exact menuInv_applyEffect st st h rfl
      · simp only [Bool.not_eq_false] at hm
        cases hcat : st.activeCategory with
        | some c =>
          have hstep : (handleKeyDown p Key.escape st).2 =
              { st with activeCategory := none, selectedIndex := 0, filter := "" } := by
            simp [handleKeyDown, hm, hcat]
          rw [hstep]
          exact menuInv_applyEffect_zero st _ rfl
        | none =>
          have hstep : (handleKeyDown p Key.escape st).2 =
              { st with showMenu := false } := by
            simp [handleKeyDown, hm, hcat]
          rw [hstep]
          exact menuInv_applyEffect st _ h rfl

theorem applyEffect_reset (old X : EditorState)
    (h : (applyEffect old X).filter ≠ old.filter ∨
      (applyEffect old X).activeCategory ≠ old.activeCategory) :
    (applyEffect old X).selectedIndex = 0 := by
  unfold applyEffect at h ⊢
  by_cases hc : X.filter ≠ old.filter ∨ X.activeCategory ≠ old.activeCategory
  · rw [if_pos hc]
  · rw [if_neg hc] at h ⊢
    exact absurd h hc

/-- Whenever a transition changes the filter or the active category, the
effect of lines 156-158 resets the selection to zero. -/
theorem step_reset (p : TokensProp) (ev : Ev) (st : EditorState)
    (h : (step p ev st).filter ≠ st.filter ∨
      (step p ev st).activeCategory ≠ st.activeCategory) :
    (step p ev st).selectedIndex = 0 := by
  cases ev with
  | key k =>
    simp only [step] at h ⊢
    exact applyEffect_reset st _ h
  | typed c =>
    simp only [step] at h ⊢
    exact applyEffect_reset st _ h

/-- C4 (amended): under a fixed token-catalogue snapshot, every editor
transition — typing, navigation, selection, cancellation — preserves the
invariant that `selectedIndex` is a valid index of the visible list
whenever that list is non-empty; and whenever a transition changes the
filter text or the active category the selection index is reset to zero.
The code does NOT clamp the index when the visible list is recomputed for
other reasons: a token-catalogue snapshot change can leave `selectedIndex`
out of range (see the counterexample), contrary to the original claim. -/
theorem C4_selected_index :
    (∀ (p : TokensProp) (ev : Ev) (st : EditorState),
      menuInv p st → menuInv p (step p ev st)) ∧
    (∀ (p : TokensProp) (ev : Ev) (st : EditorState),
      ((step p ev st).filter ≠ st.filter ∨
        (step p ev st).activeCategory ≠ st.activeCategory) →
      (step p ev st).selectedIndex = 0) :=
  ⟨step_menuInv, step_reset⟩

/-- Counterexample for C4 as stated: open the menu and navigate to the
third of three category rows, then let the catalogue snapshot lose its
spacing tokens.  The visible list recomputes to two rows (non-empty), but
`selectedIndex` stays 2 — out of range, not clamped: the only reset is
the filter/category effect, which a snapshot change does not trigger. -/
theorem C4_selected_index_cex :
    stTrace.showMenu = true ∧
    stTrace.selectedIndex = 2 ∧
    itemCount pFull stTrace = 3 ∧
    itemCount pNoSpacing stTrace = 2 ∧
    ¬ menuInv pNoSpacing stTrace := by
  decide

/-- Witness for C4 (amended): preservation applied on a concrete
navigation step, and the reset applied on a concrete Escape that clears
the active category. -/
theorem C4_selected_index_witness :
    menuInv pFull (step pFull (Ev.key Key.arrowDown) stTrace) ∧
    (step pFull (Ev.key Key.escape) stTrig).selectedIndex = 0 := by
  constructor
  · exact C4_selected_index.1 pFull (Ev.key Key.arrowDown) stTrace (by decide)
  · exact C4_selected_index.2 pFull (Ev.key Key.escape) stTrig (by decide)
